import Mathlib

/-!
Verification of the recipe-management backend (recipe and tag endpoints).

The development shallowly embeds `app/recipe/views.py` (RecipeViewSet and
TagViewSet) over an explicit store of recipe and tag records.  Django ORM
queryset chaining (`filter` / `order_by('-id')` / `distinct()`) is modelled
as list filtering, a descending merge sort and deduplication; the SQL join
duplication produced by `tags__id__in` / `recipe__isnull` filters is made
explicit with `flatMap`, so that `distinct()` does real work.  Python
`int()` conversion, which raises `ValueError` on a non-integer string, is
modelled by an `Option`-valued parser, with the raised exception surfacing
as an `Except.error` of the whole handler (the views install no handler for
it).  Parts of the repository that the claims need but whose source file is
absent (the DRF serializers) are modelled from the spec and marked as such
in their doc comments.
-/

deriving instance DecidableEq for Except

namespace RecipeApi

/-- A recipe record: `core.models.Recipe`.  `tags` is the many-to-many
association, held as the list of associated tag ids.  The decimal price is
carried in cents. -/
structure Recipe where
  id : Nat
  user : Nat
  title : String
  description : String
  timeMinutes : Nat
  priceCents : Nat
  link : String
  tags : List Nat
deriving Repr, DecidableEq

/-- A tag record: `core.models.Tag`. -/
structure Tag where
  id : Nat
  user : Nat
  name : String
deriving Repr, DecidableEq

/-- The persistent store backing the two viewsets. -/
structure Store where
  recipes : List Recipe
  tags : List Tag
deriving Repr, DecidableEq

/-- Well-formedness of the store: record ids are unique. -/
def Store.WF (s : Store) : Prop :=
  (s.recipes.map Recipe.id).Nodup ∧ (s.tags.map Tag.id).Nodup

instance : DecidablePred Store.WF := fun s =>
  decidable_of_iff ((s.recipes.map Recipe.id).Nodup ∧ (s.tags.map Tag.id).Nodup) Iff.rfl

/-- An uncaught Python exception escaping the request handler (the views
wrap none of their conversions in try/except). -/
inductive PyExn where
  | valueError
deriving Repr, DecidableEq

/-- Errors surfaced as structured HTTP responses by the framework. -/
inductive ApiError where
  | notFound
  | forbidden
  | badRequest
deriving Repr, DecidableEq

/-- Python `int(s)`: an optional sign followed by at least one digit
(whitespace and underscore niceties are irrelevant to the inputs at issue);
`none` models a raised `ValueError`. -/
def pyInt (s : String) : Option Int :=
  let digits : List Char → Option Nat := fun cs =>
    if cs ≠ [] ∧ cs.all Char.isDigit then
      some (cs.foldl (fun acc c => acc * 10 + (c.toNat - 48)) 0)
    else none
  match s.data with
  | '-' :: rest => (digits rest).map (fun n => -(n : Int))
  | '+' :: rest => (digits rest).map (fun n => (n : Int))
  | cs => (digits cs).map (fun n => (n : Int))

/-- Python `s.split(',')` over the character list: every comma is a cut
point, so the result always has one piece more than there are commas (an
empty string yields one empty piece). -/
def splitCommaChars : List Char → List (List Char)
  | [] => [[]]
  | c :: cs =>
      if c = ',' then [] :: splitCommaChars cs
      else
        match splitCommaChars cs with
        | [] => [[c]]
        | h :: t => (c :: h) :: t

/-- Python `s.split(',')` on strings. -/
def splitComma (s : String) : List String :=
  (splitCommaChars s.data).map String.mk

/-- `RecipeViewSet._params_to_ints`: split on commas and convert each piece
with `int`; any piece failing to convert raises `ValueError` (`none`). -/
def params_to_ints (qs : String) : Option (List Int) :=
  (splitComma qs).mapM pyInt

/-- The comparison behind `order_by('-id')`: descending by recipe id (ties
in an arbitrary stable order, as in SQL). -/
def recipeIdGE (a b : Recipe) : Prop := b.id ≤ a.id

instance : DecidableRel recipeIdGE := fun a b => Nat.decLe b.id a.id

instance : IsTotal Recipe recipeIdGE := ⟨fun a b => Nat.le_total b.id a.id⟩

instance : IsTrans Recipe recipeIdGE := ⟨fun _ _ _ hab hbc => le_trans hbc hab⟩

/-- The comparison behind `order_by('-name')`: descending by tag name. -/
def tagNameGE (a b : Tag) : Prop := b.name ≤ a.name

instance : DecidableRel tagNameGE := fun a b =>
  decidable_of_iff (¬ a.name.data < b.name.data)
    (not_congr String.lt_iff_toList_lt.symm)

instance : IsTotal Tag tagNameGE := ⟨fun a b => le_total b.name a.name⟩

instance : IsTrans Tag tagNameGE := ⟨fun _ _ _ hab hbc => le_trans hbc hab⟩

/-- `order_by('-id').distinct()` on a recipe queryset: sort descending by id
and deduplicate rows. -/
def orderByIdDescDistinct (rs : List Recipe) : List Recipe :=
  (List.insertionSort recipeIdGE rs).dedup

/-- `order_by('-name').distinct()` on a tag queryset. -/
def orderByNameDescDistinct (ts : List Tag) : List Tag :=
  (List.insertionSort tagNameGE ts).dedup

/-- `RecipeViewSet.get_queryset`.  `tagsParam` is
`request.query_params.get('tags')` (`none` when absent).  A non-empty
parameter is split and converted (`ValueError` propagates uncaught), and the
`tags__id__in` filter joins each recipe once per matching tag; the result is
then restricted to the requesting user, ordered by descending id and
deduplicated. -/
def recipe_get_queryset (store : Store) (userId : Nat) (tagsParam : Option String) :
    Except PyExn (List Recipe) :=
  let finish : List Recipe → Except PyExn (List Recipe) := fun base =>
    .ok (orderByIdDescDistinct (base.filter (fun r => r.user = userId)))
  match tagsParam with
  | none => finish store.recipes
  | some s =>
      if s = "" then finish store.recipes
      else
        match params_to_ints s with
        | none => .error .valueError
        | some tagIds =>
            finish (store.recipes.flatMap (fun r =>
              (r.tags.filter (fun t => tagIds.contains (Int.ofNat t))).map (fun _ => r)))

/-- `TagViewSet.get_queryset`.  `assignedParam` is
`request.query_params.get('assigned_only', 0)` (`none` when absent, in which
case `int 0 = 0` without parsing).  `assigned_only == 1` joins each tag once
per recipe referencing it (`recipe__isnull=False`) — the recipe side of the
join carries no user filter; `assigned_only == 2` keeps tags referenced by
no recipe; any other integer applies no assignment filter.  The result is
then restricted to the requesting user, ordered by descending name and
deduplicated. -/
def tag_get_queryset (store : Store) (userId : Nat) (assignedParam : Option String) :
    Except PyExn (List Tag) :=
  let parsed : Option Int := match assignedParam with
    | none => some 0
    | some s => pyInt s
  match parsed with
  | none => .error .valueError
  | some a =>
      let q : List Tag :=
        if a = 1 then
          store.tags.flatMap (fun t =>
            (store.recipes.filter (fun r => r.tags.contains t.id)).map (fun _ => t))
        else if a = 2 then
          store.tags.filter (fun t => !(store.recipes.any (fun r => r.tags.contains t.id)))
        else store.tags
      .ok (orderByNameDescDistinct (q.filter (fun t => t.user = userId)))

/-- DRF `get_object` for a recipe detail route: look the pk up inside the
result of `get_queryset` (no query parameters accompany detail requests), so
a recipe of another owner is simply not found — a 404, never a 403. -/
def get_object (store : Store) (userId : Nat) (recipeId : Nat) : Option Recipe :=
  (store.recipes.filter (fun r => r.user = userId)).find? (fun r => r.id = recipeId)

/-- An update payload.  `user` is carried so that its rejection can be
stated; `tags` is the optional `tag_specs` list of tag names. -/
structure RecipePayload where
  title : Option String
  description : Option String
  timeMinutes : Option Nat
  priceCents : Option Nat
  link : Option String
  user : Option Nat
  tags : Option (List String)
deriving Repr, DecidableEq

/-- A fresh tag id: one more than the largest id in the store. -/
def freshTagId (ts : List Tag) : Nat :=
  (ts.map Tag.id).foldr max 0 + 1

/-- Modelled from the spec: `serializers.py` is absent from the sources; per
the spec, each tag name in `tag_specs` is resolved by find-or-create against
the requesting user's tags — an existing tag of that user with that name is
reused, otherwise a new tag owned by the user is created. -/
def resolveTag (ts : List Tag) (userId : Nat) (name : String) : List Tag × Nat :=
  match ts.find? (fun t => t.user = userId ∧ t.name = name) with
  | some t => (ts, t.id)
  | none => (ts ++ [⟨freshTagId ts, userId, name⟩], freshTagId ts)

/-- Modelled from the spec: sequential find-or-create over the ordered list
of tag names, returning the grown tag store and the resolved tag ids. -/
def getOrCreateTags (ts : List Tag) (userId : Nat) (names : List String) :
    List Tag × List Nat :=
  names.foldl
    (fun acc name =>
      let step := resolveTag acc.1 userId name
      (step.1, acc.2 ++ [step.2]))
    (ts, [])

/-- Modelled from the spec: the serializer treats `user` as read-only, so a
`user` entry in the payload is silently ignored — every writable field is
taken from the payload when present, while the owner is always kept. -/
def applyPayload (r : Recipe) (p : RecipePayload) (resolved : Option (List Nat)) : Recipe :=
  { id := r.id
    user := r.user
    title := p.title.getD r.title
    description := p.description.getD r.description
    timeMinutes := p.timeMinutes.getD r.timeMinutes
    priceCents := p.priceCents.getD r.priceCents
    link := p.link.getD r.link
    tags := resolved.getD r.tags }

/-- Recipe update (PATCH/PUT on the detail route).  `get_object` resolves
the pk inside the user-scoped queryset — a miss is a 404 and leaves the
store untouched.  On a hit, the payload is applied with `user` ignored and,
when `tag_specs` is supplied, the recipe's tag set is replaced by the
resolved ids (tag resolution modelled from the spec, the serializer source
being absent). -/
def update_recipe (store : Store) (userId : Nat) (recipeId : Nat) (p : RecipePayload) :
    Store × Option ApiError :=
  match get_object store userId recipeId with
  | none => (store, some .notFound)
  | some r =>
      let tagStep : List Tag × Option (List Nat) :=
        match p.tags with
        | none => (store.tags, none)
        | some names =>
            let gc := getOrCreateTags store.tags userId names
            (gc.1, some gc.2)
      let r' := applyPayload r p tagStep.2
      ({ recipes := store.recipes.map (fun x => if x.id = recipeId then r' else x)
         tags := tagStep.1 }, none)

/-- Recipe deletion (DELETE on the detail route): 404 via the user-scoped
queryset, otherwise the recipe row is removed; tag rows are never deleted,
only the association goes away with the recipe. -/
def destroy_recipe (store : Store) (userId : Nat) (recipeId : Nat) :
    Store × Option ApiError :=
  match get_object store userId recipeId with
  | none => (store, some .notFound)
  | some _ =>
      ({ recipes := store.recipes.filter (fun r => !(r.id = recipeId))
         tags := store.tags }, none)

/-- Fields required to create a recipe. -/
structure RecipeFields where
  title : String
  description : String
  timeMinutes : Nat
  priceCents : Nat
  link : String
deriving Repr, DecidableEq

/-- A fresh recipe id: one more than the largest id in the store. -/
def freshRecipeId (rs : List Recipe) : Nat :=
  (rs.map Recipe.id).foldr max 0 + 1

/-- Recipe creation.  `perform_create` in the view saves with
`user=self.request.user`; the tag reconciliation is modelled from the spec
(serializer source absent), resolving `tag_specs` by find-or-create and
attaching the resolved set to the new recipe. -/
def create_recipe (store : Store) (userId : Nat) (f : RecipeFields) (names : List String) :
    Store × Recipe :=
  let gc := getOrCreateTags store.tags userId names
  let r : Recipe :=
    { id := freshRecipeId store.recipes
      user := userId
      title := f.title
      description := f.description
      timeMinutes := f.timeMinutes
      priceCents := f.priceCents
      link := f.link
      tags := gc.2 }
  ({ recipes := store.recipes ++ [r], tags := gc.1 }, r)

/-- The outcome of the image-upload action as seen by the transport layer. -/
inductive UploadOutcome where
  | badRequest
  | okLabels (presignedUrl : String) (labels : List (String × Nat))
  | serverError (msg : String)
  | unboundLocalError
deriving Repr, DecidableEq

/-- What the external S3/Rekognition collaborator hands back: either an
error message (a dict holding an error key) or a presigned URL with labels. -/
inductive S3Outcome where
  | errorMsg (msg : String)
  | okResult (presignedUrl : String) (labels : List (String × Nat))
deriving Repr, DecidableEq

/-- `RecipeViewSet.upload_image`.  The serializer's validity and the
collaborator's behaviour are inputs (their code is outside this core).  The
handler assigns `result` only inside the `if image_file:` block, yet reads
it unconditionally right after — when the request files carry no image the
read hits an unassigned local and the handler dies with an
`UnboundLocalError` instead of producing a response. -/
def upload_image (serializerValid : Bool) (imageFile : Option String)
    (s3 : String → S3Outcome) : UploadOutcome :=
  if serializerValid then
    let result? : Option S3Outcome := imageFile.map s3
    match result? with
    | none => .unboundLocalError
    | some (.errorMsg m) => .serverError m
    | some (.okResult url labels) => .okLabels url labels
  else .badRequest

/-- A sample store: user 1 owns recipes 1-3 and tags 10, 11, 13; user 2
owns recipe 4 and tag 12.  Tag 13 hangs on no recipe. -/
def sampleStore : Store :=
  { recipes :=
      [⟨1, 1, "r1", "d", 5, 100, "", [10]⟩,
       ⟨2, 1, "r2", "d", 5, 100, "", [11]⟩,
       ⟨3, 1, "r3", "d", 5, 100, "", []⟩,
       ⟨4, 2, "rB", "d", 5, 100, "", [10]⟩]
    tags :=
      [⟨10, 1, "chockolate"⟩, ⟨11, 1, "Vegan"⟩, ⟨12, 2, "Bt"⟩, ⟨13, 1, "unassigned"⟩] }

/-- A store where the only recipe belongs to user 2 yet carries user 1's
tag, exercising the unscoped recipe join of the ASSIGNED filter. -/
def crossUserStore : Store :=
  { recipes := [⟨1, 2, "other users recipe", "d", 5, 100, "", [7]⟩]
    tags := [⟨7, 1, "mine"⟩] }

/-! Helper lemmas about the queryset building blocks. -/

theorem mem_orderByIdDescDistinct {rs : List Recipe} {r : Recipe} :
    r ∈ orderByIdDescDistinct rs ↔ r ∈ rs := by
  rw [orderByIdDescDistinct, List.mem_dedup, List.mem_insertionSort]

theorem nodup_orderByIdDescDistinct (rs : List Recipe) :
    (orderByIdDescDistinct rs).Nodup :=
  List.nodup_dedup _

theorem pairwise_orderByIdDescDistinct (rs : List Recipe) :
    (orderByIdDescDistinct rs).Pairwise (fun a b => b.id ≤ a.id) :=
  List.Pairwise.sublist (List.dedup_sublist _) (List.sorted_insertionSort recipeIdGE rs)

theorem mem_orderByNameDescDistinct {ts : List Tag} {t : Tag} :
    t ∈ orderByNameDescDistinct ts ↔ t ∈ ts := by
  rw [orderByNameDescDistinct, List.mem_dedup, List.mem_insertionSort]

theorem nodup_orderByNameDescDistinct (ts : List Tag) :
    (orderByNameDescDistinct ts).Nodup :=
  List.nodup_dedup _

theorem pairwise_orderByNameDescDistinct (ts : List Tag) :
    (orderByNameDescDistinct ts).Pairwise (fun a b => b.name ≤ a.name) :=
  List.Pairwise.sublist (List.dedup_sublist _) (List.sorted_insertionSort tagNameGE ts)

theorem mem_selfJoin {α β : Type} (xs : List α) (f : α → List β) (x : α) :
    x ∈ xs.flatMap (fun a => (f a).map (fun _ => a)) ↔ x ∈ xs ∧ ∃ b, b ∈ f x := by
  simp only [List.mem_flatMap, List.mem_map]
  constructor
  · rintro ⟨a, ha, b, hb, rfl⟩
    exact ⟨ha, b, hb⟩
  · rintro ⟨hx, b, hb⟩
    exact ⟨x, hx, b, hb, rfl⟩

theorem tagq_ok_shape {store : Store} {u : Nat} {p : Option String} {res : List Tag}
    (h : tag_get_queryset store u p = .ok res) :
    ∃ q : List Tag, res = orderByNameDescDistinct (q.filter (fun t => t.user = u)) := by
  cases p with
  | none =>
      exact ⟨store.tags, (Except.ok.inj h).symm⟩
  | some s =>
      cases hp : pyInt s with
      | none => simp [tag_get_queryset, hp] at h
      | some a =>
          simp only [tag_get_queryset, hp] at h
          exact ⟨_, (Except.ok.inj h).symm⟩

theorem recipeq_ok_shape {store : Store} {u : Nat} {p : Option String} {res : List Recipe}
    (h : recipe_get_queryset store u p = .ok res) :
    ∃ q : List Recipe, res = orderByIdDescDistinct (q.filter (fun r => r.user = u)) := by
  cases p with
  | none =>
      exact ⟨store.recipes, (Except.ok.inj h).symm⟩
  | some s =>
      by_cases hs : s = ""
      · subst hs
        exact ⟨store.recipes, (Except.ok.inj h).symm⟩
      · cases hp : params_to_ints s with
        | none => simp [recipe_get_queryset, hs, hp] at h
        | some ids =>
            simp only [recipe_get_queryset, hs, hp, if_neg] at h
            exact ⟨_, (Except.ok.inj h).symm⟩

theorem mem_tagq_all {store : Store} {u : Nat} {res : List Tag}
    (h : tag_get_queryset store u (some "0") = .ok res) (t : Tag) :
    t ∈ res ↔ t ∈ store.tags ∧ t.user = u := by
  have hres : res = orderByNameDescDistinct (store.tags.filter (fun t => t.user = u)) :=
    (Except.ok.inj h).symm
  subst hres
  simp [mem_orderByNameDescDistinct, List.mem_filter]

theorem mem_tagq_assigned {store : Store} {u : Nat} {res : List Tag}
    (h : tag_get_queryset store u (some "1") = .ok res) (t : Tag) :
    t ∈ res ↔ (t ∈ store.tags ∧ ∃ r ∈ store.recipes, t.id ∈ r.tags) ∧ t.user = u := by
  have hres : res = orderByNameDescDistinct
      ((store.tags.flatMap (fun t =>
        (store.recipes.filter (fun r => r.tags.contains t.id)).map (fun _ => t))).filter
          (fun t => t.user = u)) :=
    (Except.ok.inj h).symm
  subst hres
  rw [mem_orderByNameDescDistinct, List.mem_filter]
  rw [mem_selfJoin]
  simp [List.mem_filter]


theorem mem_tagq_unassigned {store : Store} {u : Nat} {res : List Tag}
    (h : tag_get_queryset store u (some "2") = .ok res) (t : Tag) :
    t ∈ res ↔ (t ∈ store.tags ∧ ¬ ∃ r ∈ store.recipes, t.id ∈ r.tags) ∧ t.user = u := by
  have hres : res = orderByNameDescDistinct
      ((store.tags.filter (fun t =>
        !(store.recipes.any (fun r => r.tags.contains t.id)))).filter
          (fun t => t.user = u)) :=
    (Except.ok.inj h).symm
  subst hres
  rw [mem_orderByNameDescDistinct, List.mem_filter, List.mem_filter]
  simp


theorem resolveTag_superset {ts : List Tag} {u : Nat} {name : String} :
    ∀ t ∈ ts, t ∈ (resolveTag ts u name).1 := by
  intro t ht
  unfold resolveTag
  cases hf : ts.find? (fun t => t.user = u ∧ t.name = name) with
  | some t0 => exact ht
  | none => exact List.mem_append_left _ ht

theorem resolveTag_resolved {ts : List Tag} {u : Nat} {name : String} :
    ∃ t ∈ (resolveTag ts u name).1, t.id = (resolveTag ts u name).2 ∧ t.user = u ∧ t.name = name := by
  unfold resolveTag
  cases hf : ts.find? (fun t => t.user = u ∧ t.name = name) with
  | some t0 =>
      have hp := List.find?_some hf
      have hm := List.mem_of_find?_eq_some hf
      simp only [decide_eq_true_eq] at hp
      exact ⟨t0, hm, rfl, hp.1, hp.2⟩
  | none =>
      refine ⟨⟨freshTagId ts, u, name⟩, ?_, rfl, rfl, rfl⟩
      exact List.mem_append_right _ (List.mem_singleton.mpr rfl)

theorem resolveTag_new {ts : List Tag} {u : Nat} {name : String} :
    ∀ t ∈ (resolveTag ts u name).1, t ∉ ts →
      t.user = u ∧ t.name = name ∧ ¬ ∃ t0 ∈ ts, t0.user = u ∧ t0.name = name := by
  intro t ht hnot
  unfold resolveTag at ht
  cases hf : ts.find? (fun t => t.user = u ∧ t.name = name) with
  | some t0 =>
      rw [hf] at ht
      exact absurd ht hnot
  | none =>
      rw [hf] at ht
      rcases List.mem_append.mp ht with h | h
      · exact absurd h hnot
      · have := List.mem_singleton.mp h
        subst this
        refine ⟨rfl, rfl, ?_⟩
        rintro ⟨t0, ht0, hu, hn⟩
        have := List.find?_eq_none.mp hf t0 ht0
        simp only [decide_eq_true_eq] at this
        exact this ⟨hu, hn⟩

theorem getOrCreateTags_go (u : Nat) :
    ∀ (names : List String) (ts : List Tag) (acc : List Nat),
      (∀ t ∈ ts, t ∈ (names.foldl
          (fun acc name =>
            let step := resolveTag acc.1 u name
            (step.1, acc.2 ++ [step.2])) (ts, acc)).1)
      ∧ (∃ ids, (names.foldl
            (fun acc name =>
              let step := resolveTag acc.1 u name
              (step.1, acc.2 ++ [step.2])) (ts, acc)).2 = acc ++ ids
          ∧ List.Forall₂ (fun name id => ∃ t ∈ (names.foldl
              (fun acc name =>
                let step := resolveTag acc.1 u name
                (step.1, acc.2 ++ [step.2])) (ts, acc)).1,
              t.id = id ∧ t.user = u ∧ t.name = name) names ids)
      ∧ (∀ t ∈ (names.foldl
            (fun acc name =>
              let step := resolveTag acc.1 u name
              (step.1, acc.2 ++ [step.2])) (ts, acc)).1,
          t ∉ ts → t.user = u ∧ t.name ∈ names ∧
            ¬ ∃ t0 ∈ ts, t0.user = u ∧ t0.name = t.name) := by
  intro names
  induction names with
  | nil =>
      intro ts acc
      refine ⟨fun t ht => ht, ⟨[], by simp, List.Forall₂.nil⟩, fun t ht hnot => absurd ht hnot⟩
  | cons name rest ih =>
      intro ts acc
      simp only [List.foldl_cons]
      obtain ⟨ih1, ⟨ids, hids, hforall⟩, ih3⟩ := ih (resolveTag ts u name).1 (acc ++ [(resolveTag ts u name).2])
      refine ⟨?_, ⟨(resolveTag ts u name).2 :: ids, ?_, ?_⟩, ?_⟩
      · intro t ht
        exact ih1 t (resolveTag_superset t ht)
      · rw [hids]
        simp
      · refine List.Forall₂.cons ?_ hforall
        obtain ⟨t, ht, hid, hu, hn⟩ := @resolveTag_resolved ts u name
        exact ⟨t, ih1 t ht, hid, hu, hn⟩
      · intro t ht hnot
        by_cases hmem : t ∈ (resolveTag ts u name).1
        · obtain ⟨hu, hn, hnone⟩ := resolveTag_new t hmem hnot
          subst hn
          exact ⟨hu, List.mem_cons_self _ _, hnone⟩
        · obtain ⟨hu, hn, hnone⟩ := ih3 t ht hmem
          refine ⟨hu, List.mem_cons_of_mem _ hn, ?_⟩
          rintro ⟨t0, ht0, h0u, h0n⟩
          exact hnone ⟨t0, resolveTag_superset t0 ht0, h0u, h0n⟩


theorem getOrCreateTags_spec (ts : List Tag) (u : Nat) (names : List String) :
    (∀ t ∈ ts, t ∈ (getOrCreateTags ts u names).1)
    ∧ List.Forall₂ (fun name id => ∃ t ∈ (getOrCreateTags ts u names).1,
        t.id = id ∧ t.user = u ∧ t.name = name) names (getOrCreateTags ts u names).2
    ∧ (∀ t ∈ (getOrCreateTags ts u names).1, t ∉ ts →
        t.user = u ∧ t.name ∈ names ∧ ¬ ∃ t0 ∈ ts, t0.user = u ∧ t0.name = t.name) := by
  obtain ⟨h1, ⟨ids, hids, hforall⟩, h3⟩ := getOrCreateTags_go u names ts []
  have h2 : (getOrCreateTags ts u names).2 = ids := by
    rw [getOrCreateTags, hids]
    simp
  refine ⟨h1, ?_, h3⟩
  rw [getOrCreateTags] at h2 ⊢
  rw [h2]
  exact hforall


theorem get_object_found {store : Store} {u rid : Nat} {r : Recipe}
    (h : get_object store u rid = some r) :
    r ∈ store.recipes ∧ r.user = u ∧ r.id = rid := by
  have hm := List.mem_of_find?_eq_some h
  have hp := List.find?_some h
  have hf := List.mem_filter.mp hm
  exact ⟨hf.1, of_decide_eq_true hf.2, of_decide_eq_true hp⟩

theorem get_object_other_user {store : Store} {A B rid : Nat} (hAB : A ≠ B)
    (hWF : store.WF) (r : Recipe) (hr : r ∈ store.recipes) (hid : r.id = rid)
    (hu : r.user = B) :
    get_object store A rid = none := by
  rw [get_object, List.find?_eq_none]
  intro x hx hxid
  have hf := List.mem_filter.mp hx
  have hxu : x.user = A := of_decide_eq_true hf.2
  have hxid2 : x.id = rid := of_decide_eq_true hxid
  have hxr : x = r :=
    List.inj_on_of_nodup_map hWF.1 hf.1 hr (by rw [hxid2, hid])
  rw [hxr] at hxu
  exact hAB (hxu.symm.trans hu)

/-- C7: for every user and store, the tag set returned for assigned_only=1
and the one returned for assigned_only=2 are disjoint, and their union is
the set returned for assigned_only=0. -/
theorem c7_assigned_unassigned_partition (store : Store) (u : Nat)
    (r0 r1 r2 : List Tag)
    (h0 : tag_get_queryset store u (some "0") = .ok r0)
    (h1 : tag_get_queryset store u (some "1") = .ok r1)
    (h2 : tag_get_queryset store u (some "2") = .ok r2) :
    (∀ t, ¬ (t ∈ r1 ∧ t ∈ r2)) ∧ (∀ t, t ∈ r0 ↔ t ∈ r1 ∨ t ∈ r2) := by
  constructor
  · rintro t ⟨ha, hb⟩
    exact ((mem_tagq_unassigned h2 t).mp hb).1.2 ((mem_tagq_assigned h1 t).mp ha).1.2
  · intro t
    rw [mem_tagq_all h0 t, mem_tagq_assigned h1 t, mem_tagq_unassigned h2 t]
    constructor
    · rintro ⟨ht, hu⟩
      by_cases hx : ∃ r ∈ store.recipes, t.id ∈ r.tags
      · exact Or.inl ⟨⟨ht, hx⟩, hu⟩
      · exact Or.inr ⟨⟨ht, hx⟩, hu⟩
    · rintro (⟨⟨ht, _⟩, hu⟩ | ⟨⟨ht, _⟩, hu⟩) <;> exact ⟨ht, hu⟩

/-- C8: under the ASSIGNED filter a tag of the requesting user is returned
iff some recipe of any owner references it — the recipe side of the join is
not scoped to the requesting user. -/
theorem c8_assigned_join_unscoped (store : Store) (u : Nat) (r1 : List Tag)
    (h1 : tag_get_queryset store u (some "1") = .ok r1) (t : Tag) :
    t ∈ r1 ↔ t.user = u ∧ t ∈ store.tags ∧ ∃ r ∈ store.recipes, t.id ∈ r.tags := by
  rw [mem_tagq_assigned h1 t]
  tauto

/-- C9: every tag-list result contains only the requesting user's tags, has
no duplicates, and is ordered by descending tag name. -/
theorem c9_tag_list_scoped_dedup_sorted (store : Store) (u : Nat)
    (p : Option String) (res : List Tag)
    (h : tag_get_queryset store u p = .ok res) :
    (∀ t ∈ res, t.user = u) ∧ res.Nodup ∧ res.Pairwise (fun a b => b.name ≤ a.name) := by
  obtain ⟨q, rfl⟩ := tagq_ok_shape h
  refine ⟨?_, nodup_orderByNameDescDistinct _, pairwise_orderByNameDescDistinct _⟩
  intro t ht
  exact of_decide_eq_true (List.mem_filter.mp (mem_orderByNameDescDistinct.mp ht)).2

/-- C10: when the serializer input is valid but the request files carry no
image entry, `upload_image` reads the local `result` without it ever having
been assigned and dies with an UnboundLocalError instead of producing any
structured response — for every possible collaborator behaviour. -/
theorem c10_upload_image_unbound_local (s3 : String → S3Outcome) :
    upload_image true none s3 = .unboundLocalError := rfl



/-- C1: a user distinct from a recipe's owner cannot update or delete it —
both fail NotFound (not Forbidden) and leave the store untouched — and the
owner's recipes and tags never appear in the other user's list results. -/
theorem c1_cross_user_isolation (store : Store) (A B rid : Nat) (p : RecipePayload)
    (hAB : A ≠ B) (hWF : store.WF)
    (hB : ∃ r ∈ store.recipes, r.id = rid ∧ r.user = B) :
    update_recipe store A rid p = (store, some .notFound)
    ∧ destroy_recipe store A rid = (store, some .notFound)
    ∧ (∀ sp res, recipe_get_queryset store A sp = .ok res → ∀ r ∈ res, r.user ≠ B)
    ∧ (∀ ap res, tag_get_queryset store A ap = .ok res → ∀ t ∈ res, t.user ≠ B) := by
  obtain ⟨r, hr, hid, hu⟩ := hB
  have hnone := get_object_other_user hAB hWF r hr hid hu
  refine ⟨?_, ?_, ?_, ?_⟩
  · rw [update_recipe, hnone]
  · rw [destroy_recipe, hnone]
  · intro sp res h x hx
    obtain ⟨q, rfl⟩ := recipeq_ok_shape h
    have hxu : x.user = A :=
      of_decide_eq_true (List.mem_filter.mp (mem_orderByIdDescDistinct.mp hx)).2
    rw [hxu]
    exact hAB
  · intro ap res h t ht
    obtain ⟨q, rfl⟩ := tagq_ok_shape h
    have htu : t.user = A :=
      of_decide_eq_true (List.mem_filter.mp (mem_orderByNameDescDistinct.mp ht)).2
    rw [htu]
    exact hAB

/-- C2: listing recipes with a tag-id filter returns exactly the user's
recipes carrying at least one tag of the filter set, each exactly once even
when several of its tags match, ordered by descending recipe id. -/
theorem c2_filter_by_tag_ids (store : Store) (u : Nat) (s : String) (ids : List Int)
    (res : List Recipe) (hs : s ≠ "") (hp : params_to_ints s = some ids)
    (h : recipe_get_queryset store u (some s) = .ok res) :
    (∀ r, r ∈ res ↔ r ∈ store.recipes ∧ r.user = u ∧ ∃ tid ∈ r.tags, Int.ofNat tid ∈ ids)
    ∧ res.Nodup
    ∧ res.Pairwise (fun a b => b.id ≤ a.id) := by
  have hres : res = orderByIdDescDistinct ((store.recipes.flatMap (fun r =>
      (r.tags.filter (fun t => ids.contains (Int.ofNat t))).map (fun _ => r))).filter
        (fun r => r.user = u)) := by
    simp only [recipe_get_queryset, if_neg hs, hp] at h
    exact (Except.ok.inj h).symm
  subst hres
  refine ⟨?_, nodup_orderByIdDescDistinct _, pairwise_orderByIdDescDistinct _⟩
  intro r
  rw [mem_orderByIdDescDistinct, List.mem_filter, mem_selfJoin]
  simp only [List.mem_filter, decide_eq_true_eq, List.contains_eq_any_beq, List.any_eq_true, beq_iff_eq]
  constructor
  · rintro ⟨⟨hr, tid, htid, x, hx, hxx⟩, hu⟩
    exact ⟨hr, hu, tid, htid, hxx ▸ hx⟩
  · rintro ⟨hr, hu, tid, htid, hin⟩
    exact ⟨⟨hr, tid, htid, Int.ofNat tid, hin, rfl⟩, hu⟩



/-- C3: a `tag_specs` list on create or update resolves each name to the
user's existing tag of that name when one exists and to a newly created tag
owned by the user otherwise; the recipe's tag set is replaced by the
resolved set, an empty list leaves it with zero tags, and Tag records are
never deleted.  Tag resolution is modelled from the spec (the serializer
source is absent from the repository). -/
theorem c3_tag_specs_reconciliation (store : Store) (u rid : Nat)
    (names : List String) (p : RecipePayload) (r : Recipe)
    (hp : p.tags = some names)
    (hfound : get_object store u rid = some r) :
    List.Forall₂ (fun name id => ∃ t ∈ (getOrCreateTags store.tags u names).1,
        t.id = id ∧ t.user = u ∧ t.name = name) names (getOrCreateTags store.tags u names).2
    ∧ (∀ t ∈ (getOrCreateTags store.tags u names).1, t ∉ store.tags →
        t.user = u ∧ t.name ∈ names ∧ ¬ ∃ t0 ∈ store.tags, t0.user = u ∧ t0.name = t.name)
    ∧ (∀ t ∈ store.tags, t ∈ (update_recipe store u rid p).1.tags)
    ∧ (∃ r2 ∈ (update_recipe store u rid p).1.recipes,
        r2.id = r.id ∧ r2.tags = (getOrCreateTags store.tags u names).2)
    ∧ (∀ f, (create_recipe store u f names).2.tags = (getOrCreateTags store.tags u names).2
        ∧ (create_recipe store u f names).1.tags = (getOrCreateTags store.tags u names).1
        ∧ ∀ t ∈ store.tags, t ∈ (create_recipe store u f names).1.tags)
    ∧ (names = [] → (getOrCreateTags store.tags u names).2 = []
        ∧ (update_recipe store u rid p).1.tags = store.tags) := by
  obtain ⟨hsup, hforall, hnew⟩ := getOrCreateTags_spec store.tags u names
  obtain ⟨hrmem, hruser, hrid⟩ := get_object_found hfound
  have hupd : update_recipe store u rid p =
      ({ recipes := store.recipes.map (fun x =>
            if x.id = rid then applyPayload r p (some (getOrCreateTags store.tags u names).2) else x)
         tags := (getOrCreateTags store.tags u names).1 }, none) := by
    rw [update_recipe, hfound, hp]
  refine ⟨hforall, hnew, ?_, ?_, ?_, ?_⟩
  · intro t ht
    rw [hupd]
    exact hsup t ht
  · rw [hupd]
    refine ⟨applyPayload r p (some (getOrCreateTags store.tags u names).2), ?_, rfl, rfl⟩
    exact List.mem_map.mpr ⟨r, hrmem, by simp [hrid]⟩
  · intro f
    exact ⟨rfl, rfl, fun t ht => hsup t ht⟩
  · intro hnil
    subst hnil
    refine ⟨rfl, ?_⟩
    rw [hupd]
    exact rfl

/-- C4: a `user` entry in an update payload is silently ignored — the
update behaves exactly as with no `user` entry, the owners (and ids) of all
stored recipes are unchanged by an update, deletion only removes rows, and
creation adds a recipe owned by the requesting user. -/
theorem c4_owner_never_transfers (store : Store) (u rid : Nat) (p : RecipePayload)
    (hWF : store.WF) :
    update_recipe store u rid p = update_recipe store u rid
      ⟨p.title, p.description, p.timeMinutes, p.priceCents, p.link, none, p.tags⟩
    ∧ (update_recipe store u rid p).1.recipes.map Recipe.user = store.recipes.map Recipe.user
    ∧ (update_recipe store u rid p).1.recipes.map Recipe.id = store.recipes.map Recipe.id
    ∧ (∀ r2 ∈ (destroy_recipe store u rid).1.recipes, r2 ∈ store.recipes)
    ∧ (∀ f names, ∀ r2 ∈ (create_recipe store u f names).1.recipes,
        r2 ∈ store.recipes ∨ r2.user = u) := by
  refine ⟨by cases p; rfl, ?_, ?_, ?_, ?_⟩
  · cases hobj : get_object store u rid with
    | none => rw [update_recipe, hobj]
    | some r0 =>
        obtain ⟨hmem, huser, hid⟩ := get_object_found hobj
        rw [update_recipe, hobj]
        simp only [List.map_map]
        refine List.map_congr_left ?_
        intro x hx
        by_cases hxid : x.id = rid
        · have hxr : x = r0 :=
            List.inj_on_of_nodup_map hWF.1 hx hmem (by rw [hxid, hid])
          simp [hxid, applyPayload, hxr, hid]
        · simp [hxid]
  · cases hobj : get_object store u rid with
    | none => rw [update_recipe, hobj]
    | some r0 =>
        obtain ⟨hmem, huser, hid⟩ := get_object_found hobj
        rw [update_recipe, hobj]
        simp only [List.map_map]
        refine List.map_congr_left ?_
        intro x hx
        by_cases hxid : x.id = rid
        · simp [hxid, applyPayload, hid, hxid]
        · simp [hxid]
  · intro r2 h2
    cases hobj : get_object store u rid with
    | none =>
        rw [destroy_recipe, hobj] at h2
        exact h2
    | some r0 =>
        rw [destroy_recipe, hobj] at h2
        exact (List.mem_filter.mp h2).1
  · intro f names r2 h2
    rcases List.mem_append.mp h2 with h | h
    · exact Or.inl h
    · exact Or.inr (by rw [List.mem_singleton.mp h])



/-- C5 counterexample: the element "-3" does not parse as a positive
integer, yet the request neither fails with a validation error nor with any
error — Python `int()` accepts the sign and the filter silently matches
nothing. -/
theorem c5_counterexample :
    pyInt "-3" = some (-3)
    ∧ recipe_get_queryset sampleStore 1 (some "-3") = .ok [] := by decide

/-- C5 amended: each comma-separated element must parse as a (possibly
signed, not necessarily positive) integer; when some element does not, the
handler dies with an uncaught ValueError — an unhandled server-level error,
not a validation error — and otherwise the request succeeds. -/
theorem c5_filter_parse_or_crash (store : Store) (u : Nat) (s : String)
    (hs : s ≠ "") :
    (params_to_ints s = none →
      recipe_get_queryset store u (some s) = .error .valueError)
    ∧ (∀ ids, params_to_ints s = some ids →
        ∃ res, recipe_get_queryset store u (some s) = .ok res) := by
  constructor
  · intro hp
    simp [recipe_get_queryset, hs, hp]
  · intro ids hp
    refine ⟨orderByIdDescDistinct ((store.recipes.flatMap (fun r =>
      (r.tags.filter (fun t => ids.contains (Int.ofNat t))).map (fun _ => r))).filter
        (fun r => r.user = u)), ?_⟩
    simp only [recipe_get_queryset, if_neg hs, hp]

theorem c5_witness :
    recipe_get_queryset sampleStore 1 (some "x") = .error .valueError :=
  (c5_filter_parse_or_crash sampleStore 1 "x" (by decide)).1 (by decide)

/-- C6 counterexample: the assigned_only value 5 lies outside 0, 1, 2 yet
the request succeeds, returning the unfiltered tag list of the user instead
of failing with a validation error. -/
theorem c6_counterexample :
    tag_get_queryset sampleStore 1 (some "5") =
      .ok [⟨13, 1, "unassigned"⟩, ⟨10, 1, "chockolate"⟩, ⟨11, 1, "Vegan"⟩] := by decide

/-- C6 amended: an absent assigned_only defaults to ALL; a value parsing to
any integer other than 1 and 2 (including values outside 0, 1, 2) is
silently treated as ALL; a value that is not an integer kills the handler
with an uncaught ValueError, not a validation error. -/
theorem c6_assigned_only_behaviour (store : Store) (u : Nat) (s : String) (n : Int) :
    (tag_get_queryset store u none =
      .ok (orderByNameDescDistinct (store.tags.filter (fun t => t.user = u))))
    ∧ (pyInt s = some n → n ≠ 1 → n ≠ 2 →
        tag_get_queryset store u (some s) = tag_get_queryset store u none)
    ∧ (pyInt s = none → tag_get_queryset store u (some s) = .error .valueError) := by
  refine ⟨rfl, ?_, ?_⟩
  · intro hp h1 h2
    simp [tag_get_queryset, hp, h1, h2]
  · intro hp
    simp [tag_get_queryset, hp]

theorem c6_witness :
    tag_get_queryset sampleStore 1 (some "5") = tag_get_queryset sampleStore 1 none :=
  (c6_assigned_only_behaviour sampleStore 1 "5" 5).2.1 (by decide) (by decide) (by decide)

theorem c1_witness :
    update_recipe sampleStore 2 1 ⟨none, none, none, none, none, some 2, none⟩ =
      (sampleStore, some .notFound) :=
  (c1_cross_user_isolation sampleStore 2 1 1 ⟨none, none, none, none, none, some 2, none⟩
    (by decide) (by decide) (by decide)).1

theorem c2_witness :
    ([⟨2, 1, "r2", "d", 5, 100, "", [11]⟩, ⟨1, 1, "r1", "d", 5, 100, "", [10]⟩] :
      List Recipe).Pairwise (fun a b => b.id ≤ a.id) :=
  (c2_filter_by_tag_ids sampleStore 1 "10,11" [10, 11]
    [⟨2, 1, "r2", "d", 5, 100, "", [11]⟩, ⟨1, 1, "r1", "d", 5, 100, "", [10]⟩]
    (by decide) (by decide) (by decide)).2.2

theorem c3_witness :
    ∃ r2 ∈ (update_recipe sampleStore 1 1
        ⟨none, none, none, none, none, none, some ["Vegan", "New"]⟩).1.recipes,
      r2.id = 1 ∧ r2.tags = (getOrCreateTags sampleStore.tags 1 ["Vegan", "New"]).2 :=
  (c3_tag_specs_reconciliation sampleStore 1 1 ["Vegan", "New"]
    ⟨none, none, none, none, none, none, some ["Vegan", "New"]⟩
    ⟨1, 1, "r1", "d", 5, 100, "", [10]⟩ rfl (by decide)).2.2.2.1

theorem c4_witness :
    (update_recipe sampleStore 1 1
        ⟨none, none, none, none, none, some 2, none⟩).1.recipes.map Recipe.user =
      sampleStore.recipes.map Recipe.user :=
  (c4_owner_never_transfers sampleStore 1 1 ⟨none, none, none, none, none, some 2, none⟩
    (by decide)).2.1

theorem c7_witness :
    (⟨13, 1, "unassigned"⟩ : Tag) ∈
        ([⟨13, 1, "unassigned"⟩, ⟨10, 1, "chockolate"⟩, ⟨11, 1, "Vegan"⟩] : List Tag) ↔
      (⟨13, 1, "unassigned"⟩ : Tag) ∈ ([⟨10, 1, "chockolate"⟩, ⟨11, 1, "Vegan"⟩] : List Tag)
      ∨ (⟨13, 1, "unassigned"⟩ : Tag) ∈ ([⟨13, 1, "unassigned"⟩] : List Tag) :=
  (c7_assigned_unassigned_partition sampleStore 1
    [⟨13, 1, "unassigned"⟩, ⟨10, 1, "chockolate"⟩, ⟨11, 1, "Vegan"⟩]
    [⟨10, 1, "chockolate"⟩, ⟨11, 1, "Vegan"⟩]
    [⟨13, 1, "unassigned"⟩]
    (by decide) (by decide) (by decide)).2 ⟨13, 1, "unassigned"⟩

theorem c8_witness :
    (⟨7, 1, "mine"⟩ : Tag) ∈ ([⟨7, 1, "mine"⟩] : List Tag) :=
  (c8_assigned_join_unscoped crossUserStore 1 [⟨7, 1, "mine"⟩] (by decide)
    ⟨7, 1, "mine"⟩).mpr (by decide)

theorem c9_witness :
    ([⟨13, 1, "unassigned"⟩, ⟨10, 1, "chockolate"⟩, ⟨11, 1, "Vegan"⟩] : List Tag).Pairwise
      (fun a b => b.name ≤ a.name) :=
  (c9_tag_list_scoped_dedup_sorted sampleStore 1 none
    [⟨13, 1, "unassigned"⟩, ⟨10, 1, "chockolate"⟩, ⟨11, 1, "Vegan"⟩] (by decide)).2.2


end RecipeApi
